import Mathlib

/-!
# ledger-oasis-go: the wire protocol of `internal/app.go`

A shallow embedding of `internal/app.go` (framing, class selection, the version gate,
the address query, the chunked sign loop and device discovery), followed by the
theorems that settle the claims made about it.

Conventions of the embedding.
* A Go `byte`/`uint8` is a `Nat`; every Go conversion that can truncate (`byte(len(..))`,
  `uint8(mode)`) is written with an explicit `% 256`.
* A Go `[]byte` or `string` is a `List Nat` (`Bytes`), so that a `string(response)`
  conversion is the identity.
* A `ledger_go.LedgerDevice` is an external collaborator: it is modelled by an arbitrary
  deterministic behaviour (a function of the frames received so far and of the current
  frame) together with the observable trace of the handle: the frames it received and
  whether `Close` was called on it.
* Go's `(value, error)` results are `Except GoError value`; methods with a pointer receiver
  return the updated receiver next to the result.
* A Go run-time panic (index out of range) is `none` of an `Option`.
-/

namespace LedgerOasisGo

/-- Byte strings: Go `[]byte` and Go `string` values -/
abbrev Bytes := List Nat

/-- ASCII text of a Go string literal, as bytes -/
def str (s : String) : Bytes := s.toList.map Char.toNat

/-! ## Constants (app.go, lines 12-38) -/

def CLAConsumer : Nat := 0x05
def CLAValidator : Nat := 0xF5

def INSGetVersion : Nat := 0
def INSGetAddrEd25519 : Nat := 1
def INSSignEd25519 : Nat := 2

def PayloadChunkInit : Nat := 0
def PayloadChunkAdd : Nat := 1
def PayloadChunkLast : Nat := 2

/-- Go `type LedgerAppMode int`; the three constants are `1 + iota` -/
abbrev LedgerAppMode := Nat

def ValidatorMode : LedgerAppMode := 1
def ConsumerMode : LedgerAppMode := 2
def UnknownMode : LedgerAppMode := 3

def PathPurposeConsensus : Nat := 43

/-! ## Go's `fmt.Errorf(format)` called with no operands

`sign` builds its rejection errors with `fmt.Errorf(errorMsg)`, that is, it uses the
device's response as the *format string*.  The functions below follow `doPrintf` of Go's
`fmt` package for an empty operand list: literal bytes are copied, and every `%` starts a
directive that is parsed (flags, argument index, width, precision, argument index, verb)
and rendered as `%`, `%!verb(MISSING)`, `%!verb(BADINDEX)` or `%!(NOVERB)`. -/

/-- Go `fmt.parsenum` on the bytes up to the end of the scanned segment: whether a number
was read, and what is left.  A number that grows past 1e6 makes the scan give up and
skip to the end of the segment. -/
def parsenumAux : Nat → Bool → Bytes → Bool × Bytes
  | _, isnum, [] => (isnum, [])
  | num, isnum, c :: cs =>
    if 48 ≤ c ∧ c ≤ 57 then
      if num > 1000000 then (false, []) else parsenumAux (num * 10 + (c - 48)) true cs
    else (isnum, c :: cs)

def parsenum (s : Bytes) : Bool × Bytes := parsenumAux 0 false s

/-- Go `fmt.parseArgNumber` (the input starts with an opening bracket): the number of bytes
to consume and whether a well-formed `[n]` was read -/
def parseArgNumber (format : Bytes) : Nat × Bool :=
  if format.length < 3 then (1, false)
  else
    let tl := format.drop 1
    let k := tl.indexOf 93
    if k < tl.length then (k + 2, parsenum (tl.take k) == (true, []))
    else (1, false)

/-- Go `(*pp).argNumber` with `numArgs = 0`: the rest of the format, `found`, and the
new value of `goodArgNum` (no index is in range when there are no operands) -/
def argNumber (s : Bytes) (good : Bool) : Bytes × Bool × Bool :=
  match s with
  | 91 :: _ =>
    let r := parseArgNumber s
    (s.drop r.1, r.2, false)
  | _ => (s, false, good)

def isFlagByte (c : Nat) : Bool :=
  c == 35 || c == 48 || c == 43 || c == 45 || c == 32

def isContinuationByte (c : Nat) : Bool := decide (128 ≤ c ∧ c ≤ 191)

/-- Bytes of U+FFFD, what `writeRune(utf8.RuneError)` appends -/
def runeErrorBytes : Bytes := [239, 191, 189]

/-- The verb rune at the head of `v :: rest`, as `utf8.DecodeRuneInString` reads it, given
back in the encoding `writeRune` appends, with the bytes that follow it.  An invalid
encoding is the rune U+FFFD of width one. -/
def decodeVerb (v : Nat) (rest : Bytes) : Bytes × Bytes :=
  if v < 128 then ([v], rest)
  else if 194 ≤ v ∧ v ≤ 223 then
    match rest with
    | s1 :: r => if isContinuationByte s1 then ([v, s1], r) else (runeErrorBytes, rest)
    | _ => (runeErrorBytes, rest)
  else if 224 ≤ v ∧ v ≤ 239 then
    let lo := if v = 224 then 160 else 128
    let hi := if v = 237 then 159 else 191
    match rest with
    | s1 :: s2 :: r =>
      if lo ≤ s1 ∧ s1 ≤ hi ∧ isContinuationByte s2 then ([v, s1, s2], r)
      else (runeErrorBytes, rest)
    | _ => (runeErrorBytes, rest)
  else if 240 ≤ v ∧ v ≤ 244 then
    let lo := if v = 240 then 144 else 128
    let hi := if v = 244 then 143 else 191
    match rest with
    | s1 :: s2 :: s3 :: r =>
      if lo ≤ s1 ∧ s1 ≤ hi ∧ isContinuationByte s2 ∧ isContinuationByte s3 then
        ([v, s1, s2, s3], r)
      else (runeErrorBytes, rest)
    | _ => (runeErrorBytes, rest)
  else (runeErrorBytes, rest)

/-- One directive of `doPrintf` with no operands: `s` is the format after the `%`; the
result is what is appended to the buffer and the rest of the format -/
def directive (s : Bytes) : Bytes × Bytes :=
  let s1 := s.dropWhile isFlagByte
  -- explicit argument index
  let a1 := argNumber s1 true
  -- width
  let w : Bytes × Bytes × Bool × Bool :=
    match a1.1 with
    | 42 :: r => (str "%!(BADWIDTH)", r, false, a1.2.2)
    | s2 =>
      let n := parsenum s2
      ([], n.2, a1.2.1, a1.2.2 && !(a1.2.1 && n.1))
  -- precision
  let p : Bytes × Bytes × Bool × Bool :=
    match w.2.1 with
    | 46 :: r =>
      let a2 := argNumber r (w.2.2.2 && !w.2.2.1)
      match a2.1 with
      | 42 :: r2 => (str "%!(BADPREC)", r2, false, a2.2.2)
      | s3 => ([], (parsenum s3).2, a2.2.1, a2.2.2)
    | s3 => ([], s3, w.2.2.1, w.2.2.2)
  let a3 := if p.2.2.1 then (p.2.1, true, p.2.2.2) else argNumber p.2.1 p.2.2.2
  match a3.1 with
  | [] => (w.1 ++ p.1 ++ str "%!(NOVERB)", [])
  | v :: r =>
    let d := decodeVerb v r
    if v = 37 then (w.1 ++ p.1 ++ [37], d.2)
    else if !a3.2.2 then (w.1 ++ p.1 ++ str "%!" ++ d.1 ++ str "(BADINDEX)", d.2)
    else (w.1 ++ p.1 ++ str "%!" ++ d.1 ++ str "(MISSING)", d.2)

/-- Go `(*pp).doPrintf(format, nil)`; the fuel is an upper bound on the number of bytes
left -/
def doPrintf : Nat → Bytes → Bytes
  | 0, _ => []
  | _ + 1, [] => []
  | fuel + 1, c :: cs =>
    if c = 37 then (directive cs).1 ++ doPrintf fuel (directive cs).2
    else c :: doPrintf fuel cs

/-- Text of the error `fmt.Errorf(format)` -/
def errorfText (format : Bytes) : Bytes := doPrintf (format.length + 1) format

/-- A Go `error` value as this file produces it: an error handed over by a collaborator
and passed on unchanged, or a new error made by `fmt.Errorf(format)` -/
inductive GoError where
  | passed (text : Bytes)
  | errorf (format : Bytes)

/-- Go `err.Error()` -/
def GoError.Error : GoError → Bytes
  | .passed text => text
  | .errorf format => errorfText format

/-! ## Data model -/

/-- VersionInfo is declared in another file of the package; `app.go` fixes its shape: the
positional literal `VersionInfo{uint8(mode), 0, 0, 0}` (line 114) puts `AppMode` first, and
the keyed literal of `GetVersion` (lines 196-201) names the four `uint8` fields. -/
structure VersionInfo where
  AppMode : Nat
  Major : Nat
  Minor : Nat
  Patch : Nat
deriving DecidableEq, Repr

/-- What one blocking `Exchange` returns: Go's `(response, err)`; `err = none` is `nil`,
otherwise the text of the transport error -/
structure ExchangeResult where
  response : Bytes
  err : Option Bytes

/-- A transport handle (`ledger_go.LedgerDevice`): the device's behaviour and the trace
of what was done to the handle -/
structure LedgerDevice where
  behaviour : List Bytes → Bytes → ExchangeResult
  log : List Bytes
  closed : Bool

/-- Go `device.Exchange(message)`: the device answers, and the frame is on its log -/
def LedgerDevice.Exchange (d : LedgerDevice) (message : Bytes) :
    LedgerDevice × ExchangeResult :=
  ({ d with log := d.log ++ [message] }, d.behaviour d.log message)

/-- Go `device.Close()` -/
def LedgerDevice.Close (d : LedgerDevice) : LedgerDevice :=
  { d with closed := true }

/-- LedgerOasis represents a connection to the Ledger app (lines 41-44) -/
structure LedgerOasis where
  device : LedgerDevice
  version : VersionInfo

/-- The functions and the constant of the package that `app.go` calls and that are defined
in another file: they are parameters of the embedding -/
structure Package where
  GetBip44bytes : List Nat → Nat → Except GoError Bytes
  prepareChunks : Bytes → Bytes → Bytes → Nat → Except GoError (List Bytes)
  userMessageChunkSize : Nat

/-- Modelled from the spec: the package function `GetBip44bytes` (the path encoder of
section 4.1), which is not in `app.go`.  It fails if the path does not have exactly 5
elements or the harden count exceeds 5; otherwise each index is written as 4 little-endian
bytes, with the top bit set on the first `hardenCount` indices. -/
def GetBip44bytes (bip44Path : List Nat) (hardenCount : Nat) : Except GoError Bytes :=
  if bip44Path.length ≠ 5 ∨ hardenCount > 5 then
    .error (.errorf (str "InvalidPathError"))
  else
    .ok ((bip44Path.enum.map (fun (e : Nat × Nat) =>
      let value := if e.1 < hardenCount then (e.2 % 2 ^ 32) ||| 0x80000000 else e.2 % 2 ^ 32
      [value % 256, value / 256 % 256, value / 65536 % 256, value / 16777216 % 256])).flatten)

/-- Modelled from the spec: the package function `CheckVersion(ver, req)` (section 4.3,
`checkMinimum`), which is not in `app.go`: it compares `(major, minor, patch)`
lexicographically and fails when the version is lexicographically less than the
required one. -/
def CheckVersion (ver req : VersionInfo) : Except GoError Unit :=
  if ver.Major < req.Major
      ∨ (ver.Major = req.Major ∧ (ver.Minor < req.Minor
          ∨ (ver.Minor = req.Minor ∧ ver.Patch < req.Patch))) then
    .error (.errorf (str "UnsupportedVersionError"))
  else .ok ()

/-! ## Operations of `app.go` -/

/-- GetModeForPath (lines 93-100); `path[0]` of an empty path is a run-time panic -/
def GetModeForPath (path : List Nat) : Option LedgerAppMode :=
  match path with
  | [] => none
  | p0 :: _ => some (if p0 = PathPurposeConsensus then ValidatorMode else ConsumerMode)

/-- Close closes a connection with the Oasis user app (lines 159-161) -/
def LedgerOasis.Close (ledger : LedgerOasis) : LedgerOasis :=
  { ledger with device := ledger.device.Close }

/-- The method `CheckVersion` (lines 164-166): the required version is the positional
literal `VersionInfo{0, 0, 3, 0}` -/
def LedgerOasis.CheckVersion (_ledger : LedgerOasis) (ver : VersionInfo) :
    Except GoError Unit :=
  LedgerOasisGo.CheckVersion ver ⟨0, 0, 3, 0⟩

/-- getCLA returns the CLA value for the current app mode (lines 169-176) -/
def LedgerOasis.getCLA (ledger : LedgerOasis) : Nat :=
  if ledger.version.AppMode = ValidatorMode then CLAValidator else CLAConsumer

/-- GetVersion returns the current version of the Oasis user app (lines 179-204) -/
def LedgerOasis.GetVersion (ledger : LedgerOasis) :
    LedgerOasis × Except GoError VersionInfo :=
  let message := [ledger.getCLA, INSGetVersion, 0, 0, 0]
  let x := ledger.device.Exchange message
  match x.2.err with
  | some e => ({ ledger with device := x.1 }, .error (.passed e))
  | none =>
    match x.2.response with
    | r0 :: r1 :: r2 :: r3 :: _ =>
      let v : VersionInfo := { AppMode := r0, Major := r1, Minor := r2, Patch := r3 }
      ({ device := x.1, version := v }, .ok v)
    | _ => ({ ledger with device := x.1 }, .error (.errorf (str "invalid response")))

/-- retrieveAddressPubKeyEd25519 returns the pubkey and address (lines 308-344) -/
def LedgerOasis.retrieveAddressPubKeyEd25519 (pkg : Package) (ledger : LedgerOasis)
    (bip44Path : List Nat) (requireConfirmation : Bool) :
    LedgerOasis × Except GoError (Bytes × Bytes) :=
  match pkg.GetBip44bytes bip44Path 5 with
  | .error e => (ledger, .error e)
  | .ok pathBytes =>
    let p1 := if requireConfirmation then 1 else 0
    let header := [ledger.getCLA, INSGetAddrEd25519, p1, 0, 0]
    let message := header ++ pathBytes
    let message := message.set 4 ((message.length - header.length) % 256)
    let x := ledger.device.Exchange message
    match x.2.err with
    | some e => ({ ledger with device := x.1 }, .error (.passed e))
    | none =>
      if x.2.response.length < 39 then
        ({ ledger with device := x.1 }, .error (.errorf (str "invalid response")))
      else
        ({ ledger with device := x.1 }, .ok (x.2.response.take 32, x.2.response.drop 32))

/-- GetAddressPubKeyEd25519 (lines 225-227) -/
def LedgerOasis.GetAddressPubKeyEd25519 (pkg : Package) (ledger : LedgerOasis)
    (bip44Path : List Nat) : LedgerOasis × Except GoError (Bytes × Bytes) :=
  ledger.retrieveAddressPubKeyEd25519 pkg bip44Path false

/-- ShowAddressPubKeyEd25519 (lines 232-234) -/
def LedgerOasis.ShowAddressPubKeyEd25519 (pkg : Package) (ledger : LedgerOasis)
    (bip44Path : List Nat) : LedgerOasis × Except GoError (Bytes × Bytes) :=
  ledger.retrieveAddressPubKeyEd25519 pkg bip44Path true

def msgBadKeyHandle : Bytes :=
  str "[APDU_CODE_BAD_KEY_HANDLE] The parameters in the data field are incorrect"

def msgDataInvalid : Bytes :=
  str "[APDU_CODE_DATA_INVALID] Referenced data reversibly blocked (invalidated)"

def msgCommandNotAllowed : Bytes :=
  str "[APDU_CODE_COMMAND_NOT_ALLOWED] Sign request rejected"

/-- The `switch chunkIndex` of `sign` (lines 265-273), for `n = len(chunks)` -/
def payloadDesc (n chunkIndex : Nat) : Nat :=
  if chunkIndex = 0 then PayloadChunkInit
  else if chunkIndex = n - 1 then PayloadChunkLast
  else PayloadChunkAdd

/-- The request frame of one chunk (lines 263-276) -/
def signMessage (cla n chunkIndex : Nat) (chunk : Bytes) : Bytes :=
  [cla, INSSignEd25519, payloadDesc n chunkIndex, 0, chunk.length % 256] ++ chunk

/-- The error `sign` returns when an exchange fails (lines 284-299) -/
def signError (e response : Bytes) : GoError :=
  if e = msgBadKeyHandle then .errorf response
  else if e = msgDataInvalid then .errorf response
  else if e = msgCommandNotAllowed then .errorf response
  else .passed e

/-- The loop of `sign` (lines 256-304) from `chunkIndex` on: `n = len(chunks)`, `rest` is
`chunks[chunkIndex:]` and `finalResponse` the variable of that name -/
def LedgerOasis.signLoop (n : Nat) :
    LedgerOasis → Nat → List Bytes → Bytes → LedgerOasis × Except GoError Bytes
  | ledger, _, [], finalResponse => (ledger, .ok finalResponse)
  | ledger, chunkIndex, chunk :: rest, _ =>
    let x := ledger.device.Exchange (signMessage ledger.getCLA n chunkIndex chunk)
    match x.2.err with
    | some e => ({ ledger with device := x.1 }, .error (signError e x.2.response))
    | none => LedgerOasis.signLoop n { ledger with device := x.1 } (chunkIndex + 1) rest
        x.2.response

/-- The loop of `sign` over a whole chunk sequence -/
def LedgerOasis.signChunks (ledger : LedgerOasis) (chunks : List Bytes) :
    LedgerOasis × Except GoError Bytes :=
  LedgerOasis.signLoop chunks.length ledger 0 chunks []

/-- The method `sign` (lines 245-305) -/
def LedgerOasis.sign (pkg : Package) (ledger : LedgerOasis) (bip44Path : List Nat)
    (context transaction : Bytes) : LedgerOasis × Except GoError Bytes :=
  match pkg.GetBip44bytes bip44Path 5 with
  | .error e => (ledger, .error e)
  | .ok pathBytes =>
    match pkg.prepareChunks pathBytes context transaction pkg.userMessageChunkSize with
    | .error e => (ledger, .error e)
    | .ok chunks => ledger.signChunks chunks

/-- SignEd25519 signs a transaction using Oasis user app (lines 209-211) -/
def LedgerOasis.SignEd25519 (pkg : Package) (ledger : LedgerOasis) (bip44Path : List Nat)
    (context transaction : Bytes) : LedgerOasis × Except GoError Bytes :=
  ledger.sign pkg bip44Path context transaction

/-! ## Device discovery -/

/-- One entry of the device list of `ledger_go.NewLedgerAdmin()`: whether `Connect(i)`
fails (and with which error), and the handle it returns otherwise -/
structure Slot where
  connectErr : Option Bytes
  device : LedgerDevice

/-- The loop of `ConnectLedgerOasisApp` (lines 108-124) from index `i` on, over the
devices `admin[i:]`.  The result is: the devices in the state the loop leaves them in,
the stack of deferred `app.Close()` calls (the indices of their handles, the most recently
deferred first), and the session of the `return &app, nil` if the loop reaches it, with
the index of its handle. -/
def connectLoop (pkg : Package) (seekingAddress : Bytes) (path : List Nat)
    (mode : LedgerAppMode) : Nat → List Slot → List Slot × List Nat × Option (Nat × LedgerOasis)
  | _, [] => ([], [], none)
  | i, s :: rest =>
    match s.connectErr with
    | some _ =>
      let r := connectLoop pkg seekingAddress path mode (i + 1) rest
      (s :: r.1, r.2.1, r.2.2)
    | none =>
      let app : LedgerOasis :=
        { device := s.device, version := { AppMode := mode % 256, Major := 0, Minor := 0, Patch := 0 } }
      let q := app.GetAddressPubKeyEd25519 pkg path
      match q.2 with
      | .error _ =>
        let r := connectLoop pkg seekingAddress path mode (i + 1) rest
        ({ s with device := q.1.device } :: r.1, r.2.1 ++ [i], r.2.2)
      | .ok pa =>
        if seekingAddress = [] ∨ pa.2 = seekingAddress then
          ({ s with device := q.1.device } :: rest, [], some (i, q.1))
        else
          let r := connectLoop pkg seekingAddress path mode (i + 1) rest
          ({ s with device := q.1.device } :: r.1, r.2.1, r.2.2)

/-- One deferred `app.Close()`: the handle of index `i` is closed -/
def closeAt (devices : List Slot) (i : Nat) : List Slot :=
  devices.modify (fun s => { s with device := s.device.Close }) i

/-- The deferred calls run when the function returns, the most recently deferred first -/
def runDeferred (deferred : List Nat) (devices : List Slot) : List Slot :=
  deferred.foldl closeAt devices

/-- What `ConnectLedgerOasisApp` leaves behind when it returns: the state of every device
of the admin, and the returned `(*LedgerOasis, error)`; the session comes with the index
of the handle it owns.  (A deferred `Close` is only ever registered for a handle whose
address query failed, never for the returned one, so the returned session is the value
the loop built.) -/
structure ConnectResult where
  devices : List Slot
  result : Except GoError (Nat × LedgerOasis)

/-- ConnectLedgerOasisApp connects to Oasis app based on address (lines 103-126); `none` is
the panic of `GetModeForPath` on an empty path, which happens before any device is
connected -/
def ConnectLedgerOasisApp (pkg : Package) (seekingAddress : Bytes) (path : List Nat)
    (admin : List Slot) : Option ConnectResult :=
  match GetModeForPath path with
  | none => none
  | some mode =>
    let r := connectLoop pkg seekingAddress path mode 0 admin
    some { devices := runDeferred r.2.1 r.1,
           result := match r.2.2 with
             | some m => .ok m
             | none => .error (.errorf (str "no Oasis app with specified address found")) }

/-- The operations a caller can run on a session -/
inductive Op where
  | GetVersion
  | GetAddressPubKeyEd25519 (bip44Path : List Nat)
  | ShowAddressPubKeyEd25519 (bip44Path : List Nat)
  | SignEd25519 (bip44Path : List Nat) (context transaction : Bytes)

/-- The session after one operation (its result is dropped) -/
def LedgerOasis.run (pkg : Package) (ledger : LedgerOasis) : Op → LedgerOasis
  | .GetVersion => ledger.GetVersion.1
  | .GetAddressPubKeyEd25519 p => (ledger.GetAddressPubKeyEd25519 pkg p).1
  | .ShowAddressPubKeyEd25519 p => (ledger.ShowAddressPubKeyEd25519 pkg p).1
  | .SignEd25519 p c t => (ledger.SignEd25519 pkg p c t).1

/-- The session after a sequence of operations -/
def LedgerOasis.runAll (pkg : Package) (ledger : LedgerOasis) (ops : List Op) : LedgerOasis :=
  ops.foldl (LedgerOasis.run pkg) ledger

/-! ## Concrete packages, devices and sessions used in the examples -/

/-- Modelled from the spec: the package function `prepareChunks` (the payload chunker of
section 4.2), which is not in `app.go`.  It fails if the context is longer than 255 bytes;
otherwise the first chunk is the encoded path and the buffer
`[len(context)] ++ context ++ payload` follows in consecutive pieces of at most
`chunkSize` bytes. -/
def prepareChunks (pathBytes context transaction : Bytes) (chunkSize : Nat) :
    Except GoError (List Bytes) :=
  if context.length > 255 then .error (.errorf (str "PayloadTooLargeError"))
  else .ok (pathBytes :: ([context.length] ++ context ++ transaction).toChunks chunkSize)

/-- A package for the examples: the two helpers as the specification describes them, and
250 bytes as an example of a maximum chunk size (the constant is not in `app.go`) -/
def demoPackage : Package :=
  { GetBip44bytes := GetBip44bytes, prepareChunks := prepareChunks, userMessageChunkSize := 250 }

/-- A fresh handle of a device that answers every frame with the same response and error -/
def constDevice (response : Bytes) (err : Option Bytes) : LedgerDevice :=
  { behaviour := fun _ _ => { response := response, err := err }, log := [], closed := false }

/-- A fresh handle of a simulated device that never fails and answers by instruction: its
version bytes to a version query, its public key followed by its address to an address
query, and a signature to anything else -/
def simulatedDevice (version pubkey address signature : Bytes) : LedgerDevice :=
  { behaviour := fun _ frame =>
      match frame with
      | _ :: 0 :: _ => { response := version, err := none }
      | _ :: 1 :: _ => { response := pubkey ++ address, err := none }
      | _ => { response := signature, err := none },
    log := [], closed := false }

/-- A fresh handle of a device that hosts two apps and answers a version query by the class
of the frame: version 1.0.0 for class 0xF5 and version 2.0.0 for any other class, in both
cases with the mode byte 2.  Its answer is a function of the frame alone. -/
def classDevice : LedgerDevice :=
  { behaviour := fun _ frame =>
      if frame.head? = some 0xF5 then { response := [2, 1, 0, 0], err := none }
      else { response := [2, 2, 0, 0], err := none },
    log := [], closed := false }

/-- Thirty-two bytes standing for a public key -/
def demoPubKey : Bytes := List.replicate 32 170

/-- The device A of the discovery scenario: its address is `oasis1x` -/
def deviceA : LedgerDevice := simulatedDevice [2, 1, 0, 0] demoPubKey (str "oasis1x") [9, 9]

/-- The device B of the discovery scenario: its address is `oasis1y` -/
def deviceB : LedgerDevice := simulatedDevice [2, 1, 0, 0] demoPubKey (str "oasis1y") [9, 9]

/-- A device whose address query fails: its response is too short -/
def deviceShort : LedgerDevice := constDevice [1, 2, 3] none

/-- A device running the validator app: it reports mode 1 -/
def deviceValidator : LedgerDevice :=
  simulatedDevice [1, 0, 3, 0] demoPubKey (str "oasis1v") [9, 9]

/-- A chunk sequence as `sign` gets it: the encoded path `44/474/0/0/0`, hardened, and one
data chunk -/
def demoChunks : List Bytes :=
  [[44, 0, 0, 128, 218, 1, 0, 128, 0, 0, 0, 128, 0, 0, 0, 128, 0, 0, 0, 128], [0, 7, 7]]

/-- A session on a device that rejects every frame with the status `DATA_INVALID` and
explains itself with the text `100%` -/
def rejectedSession : LedgerOasis :=
  { device := constDevice (str "100%") (some msgDataInvalid),
    version := { AppMode := 2, Major := 0, Minor := 3, Patch := 0 } }

/-- A session on the two-app device, with the cached version as `ConnectLedgerOasisApp`
sets it for a validator path -/
def classSession : LedgerOasis :=
  { device := classDevice, version := { AppMode := 1, Major := 0, Minor := 0, Patch := 0 } }

/-- The devices of the discovery scenario, in enumeration order: A, then B -/
def scenarioAdmin : List Slot :=
  [{ connectErr := none, device := deviceA },
   { connectErr := none, device := deviceB }]

/-- The same scenario with, in the place of A, a device whose address query fails -/
def scenarioAdminShort : List Slot :=
  [{ connectErr := none, device := deviceShort },
   { connectErr := none, device := deviceB }]

/-- A device that passes the address query of the discovery and reports the consumer
mode (byte 2) to a version query -/
def deviceConsumer : LedgerDevice :=
  simulatedDevice [2, 0, 3, 0] demoPubKey (str "oasis1c") [9, 9]

/-! ## The frames of a sign call, as the specification words them -/

/-- The tag of position `i` among `n` chunks, in the words of the claim: position 0 is
Init (0); the last position is Last (2) when there are at least two chunks; every position
strictly between is Add (1) -/
def specTag (n i : Nat) : Nat :=
  if i = 0 then 0 else if i + 1 = n then 2 else 1

/-- The request frames the specification expects for the chunks `c_0 .. c_(n-1)`: the
`i`-th one is `[class, 2, tag_i, 0, len(c_i)] ++ c_i` -/
def specFrames (cla : Nat) (chunks : List Bytes) : List Bytes :=
  (List.range chunks.length).map (fun i =>
    [cla, 2, specTag chunks.length i, 0, (chunks.getD i []).length] ++ chunks.getD i [])

/-- The frames the loop of `sign` builds for `chunks[chunkIndex:]`, when it gets that far -/
def framesFrom (cla n : Nat) : Nat → List Bytes → List Bytes
  | _, [] => []
  | chunkIndex, chunk :: rest =>
    signMessage cla n chunkIndex chunk :: framesFrom cla n (chunkIndex + 1) rest

/-! ## Auxiliary facts about the embedding -/

theorem getCLA_congr (a b : LedgerOasis) (h : a.version = b.version) : a.getCLA = b.getCLA := by
  simp [LedgerOasis.getCLA, h]

theorem GetVersion_log (ledger : LedgerOasis) :
    ledger.GetVersion.1.device.log
      = ledger.device.log ++ [[ledger.getCLA, INSGetVersion, 0, 0, 0]] ∧
    ledger.GetVersion.1.device.behaviour = ledger.device.behaviour := by
  unfold LedgerOasis.GetVersion
  simp only [LedgerDevice.Exchange]
  split
  · simp
  · split <;> simp

theorem GetVersion_ok_inv (ledger : LedgerOasis) (v : VersionInfo)
    (h : ledger.GetVersion.2 = .ok v) :
    v = ⟨(ledger.device.behaviour ledger.device.log
            [ledger.getCLA, 0, 0, 0, 0]).response.getD 0 0,
          (ledger.device.behaviour ledger.device.log
            [ledger.getCLA, 0, 0, 0, 0]).response.getD 1 0,
          (ledger.device.behaviour ledger.device.log
            [ledger.getCLA, 0, 0, 0, 0]).response.getD 2 0,
          (ledger.device.behaviour ledger.device.log
            [ledger.getCLA, 0, 0, 0, 0]).response.getD 3 0⟩ ∧
      ledger.GetVersion.1.version = v := by
  revert h
  unfold LedgerOasis.GetVersion
  simp only [LedgerDevice.Exchange, INSGetVersion]
  cases he : (ledger.device.behaviour ledger.device.log [ledger.getCLA, 0, 0, 0, 0]).err with
  | some e => simp
  | none =>
    rcases hresp : (ledger.device.behaviour ledger.device.log
      [ledger.getCLA, 0, 0, 0, 0]).response with _ | ⟨r0, _ | ⟨r1, _ | ⟨r2, _ | ⟨r3, rest⟩⟩⟩⟩
    all_goals simp
    intro h
    exact ⟨h.symm, h⟩

theorem GetVersion_mode (ledger : LedgerOasis) :
    ledger.GetVersion.1.version = ledger.version ∨
    ((ledger.device.behaviour ledger.device.log [ledger.getCLA, 0, 0, 0, 0]).err = none ∧
      4 ≤ (ledger.device.behaviour ledger.device.log
        [ledger.getCLA, 0, 0, 0, 0]).response.length ∧
      (ledger.device.behaviour ledger.device.log [ledger.getCLA, 0, 0, 0, 0]).response.head?
        = some ledger.GetVersion.1.version.AppMode) := by
  unfold LedgerOasis.GetVersion
  simp only [LedgerDevice.Exchange, INSGetVersion]
  cases he : (ledger.device.behaviour ledger.device.log [ledger.getCLA, 0, 0, 0, 0]).err with
  | some e => simp
  | none =>
    rcases hresp : (ledger.device.behaviour ledger.device.log
      [ledger.getCLA, 0, 0, 0, 0]).response with _ | ⟨r0, _ | ⟨r1, _ | ⟨r2, _ | ⟨r3, rest⟩⟩⟩⟩
    all_goals simp

theorem retrieve_log (pkg : Package) (ledger : LedgerOasis) (path : List Nat) (c : Bool) :
    ∃ sent, (ledger.retrieveAddressPubKeyEd25519 pkg path c).1.device.log
        = ledger.device.log ++ sent ∧
      (∀ f ∈ sent, f.head? = some ledger.getCLA) ∧
      (ledger.retrieveAddressPubKeyEd25519 pkg path c).1.version = ledger.version ∧
      (ledger.retrieveAddressPubKeyEd25519 pkg path c).1.device.behaviour
        = ledger.device.behaviour := by
  unfold LedgerOasis.retrieveAddressPubKeyEd25519
  cases hp : pkg.GetBip44bytes path 5 with
  | error e => exact ⟨[], by simp⟩
  | ok pathBytes =>
    refine ⟨[[ledger.getCLA, INSGetAddrEd25519, if c then 1 else 0, 0,
      pathBytes.length % 256] ++ pathBytes], ?_⟩
    simp only [LedgerDevice.Exchange]
    split
    · simp
    · split_ifs <;> simp

theorem signLoop_log (n : Nat) (rest : List Bytes) :
    ∀ (ledger : LedgerOasis) (idx : Nat) (fin : Bytes),
      ∃ sent, (LedgerOasis.signLoop n ledger idx rest fin).1.device.log
          = ledger.device.log ++ sent ∧
        (∀ f ∈ sent, f.head? = some ledger.getCLA) ∧
        (LedgerOasis.signLoop n ledger idx rest fin).1.version = ledger.version ∧
        (LedgerOasis.signLoop n ledger idx rest fin).1.device.behaviour
          = ledger.device.behaviour := by
  induction rest with
  | nil => intro ledger idx fin; exact ⟨[], by simp [LedgerOasis.signLoop]⟩
  | cons chunk rest ih =>
    intro ledger idx fin
    unfold LedgerOasis.signLoop
    simp only [LedgerDevice.Exchange]
    split
    · exact ⟨[signMessage ledger.getCLA n idx chunk], by simp [signMessage]⟩
    · obtain ⟨sent, h1, h2, h3, h4⟩ := ih
        { ledger with device := { ledger.device with
            log := ledger.device.log ++ [signMessage ledger.getCLA n idx chunk] } }
        (idx + 1)
        (ledger.device.behaviour ledger.device.log
          (signMessage ledger.getCLA n idx chunk)).response
      refine ⟨signMessage ledger.getCLA n idx chunk :: sent, ?_, ?_, ?_, ?_⟩
      · rw [h1]; simp
      · intro f hf
        rcases List.mem_cons.1 hf with rfl | hf
        · simp [signMessage]
        · rw [h2 f hf]; exact congrArg some (getCLA_congr _ _ rfl)
      · rw [h3]
      · rw [h4]

theorem sign_log (pkg : Package) (ledger : LedgerOasis) (path : List Nat) (c t : Bytes) :
    ∃ sent, (ledger.sign pkg path c t).1.device.log = ledger.device.log ++ sent ∧
      (∀ f ∈ sent, f.head? = some ledger.getCLA) ∧
      (ledger.sign pkg path c t).1.version = ledger.version ∧
      (ledger.sign pkg path c t).1.device.behaviour = ledger.device.behaviour := by
  unfold LedgerOasis.sign
  cases pkg.GetBip44bytes path 5 with
  | error e => exact ⟨[], by simp⟩
  | ok pathBytes =>
    dsimp only
    cases pkg.prepareChunks pathBytes c t pkg.userMessageChunkSize with
    | error e => exact ⟨[], by simp⟩
    | ok chunks => exact signLoop_log chunks.length chunks ledger 0 []

theorem framesFrom_getElem? (cla n : Nat) (rest : List Bytes) :
    ∀ (idx i : Nat), (framesFrom cla n idx rest)[i]?
      = rest[i]?.map (signMessage cla n (idx + i)) := by
  induction rest with
  | nil => intro idx i; simp [framesFrom]
  | cons c rest ih =>
    intro idx i
    cases i with
    | zero => simp [framesFrom]
    | succ i =>
      simp only [framesFrom, List.getElem?_cons_succ, ih]
      have : idx + 1 + i = idx + (i + 1) := by omega
      rw [this]

/-- The frames of the loop are the frames of the specification when no chunk is longer
than 255 bytes -/
theorem framesFrom_eq_specFrames (cla : Nat) (chunks : List Bytes)
    (hlen : ∀ c ∈ chunks, c.length ≤ 255) :
    framesFrom cla chunks.length 0 chunks = specFrames cla chunks := by
  apply List.ext_getElem?
  intro i
  rw [framesFrom_getElem?]
  simp only [specFrames, List.getElem?_map]
  by_cases hi : i < chunks.length
  · have hc : chunks[i]? = some chunks[i] := List.getElem?_eq_getElem hi
    have hr : (List.range chunks.length)[i]? = some i := by
      rw [List.getElem?_range hi]
    have h255 : chunks[i].length ≤ 255 := hlen _ (List.getElem_mem hi)
    have hmod : chunks[i].length % 256 = chunks[i].length := Nat.mod_eq_of_lt (by omega)
    have hd : chunks.getD i [] = chunks[i] := by simp [List.getD, hc]
    rw [hc, hr]
    simp only [Option.map_some', hd, signMessage, payloadDesc, specTag, INSSignEd25519,
      PayloadChunkInit, PayloadChunkLast, PayloadChunkAdd, hmod, Nat.zero_add]
    by_cases h0 : i = 0
    · simp [h0]
    · have : (i = chunks.length - 1) ↔ (i + 1 = chunks.length) := by omega
      simp [h0, this]
  · have hc : chunks[i]? = none := List.getElem?_eq_none (by omega)
    have hr : (List.range chunks.length)[i]? = none :=
      List.getElem?_eq_none (by simp; omega)
    rw [hc, hr]; rfl

theorem signLoop_ok (n : Nat) (rest : List Bytes) :
    ∀ (ledger : LedgerOasis) (idx : Nat) (fin : Bytes),
      (∀ k, k < rest.length →
        (ledger.device.behaviour
          (ledger.device.log ++ (framesFrom ledger.getCLA n idx rest).take k)
          ((framesFrom ledger.getCLA n idx rest).getD k [])).err = none) →
      (LedgerOasis.signLoop n ledger idx rest fin).1.device.log
          = ledger.device.log ++ framesFrom ledger.getCLA n idx rest ∧
        (LedgerOasis.signLoop n ledger idx rest fin).2
          = .ok (if rest = [] then fin else
              (ledger.device.behaviour
                (ledger.device.log ++ (framesFrom ledger.getCLA n idx rest).dropLast)
                ((framesFrom ledger.getCLA n idx rest).getLast?.getD [])).response) := by
  induction rest with
  | nil => intro ledger idx fin _; simp [LedgerOasis.signLoop, framesFrom]
  | cons c rest ih =>
    intro ledger idx fin h
    have h0 := h 0 (by simp)
    simp only [framesFrom, List.take_zero, List.append_nil, List.getD_cons_zero] at h0
    have hstep : LedgerOasis.signLoop n ledger idx (c :: rest) fin
        = LedgerOasis.signLoop n
            { ledger with device := { ledger.device with
                log := ledger.device.log ++ [signMessage ledger.getCLA n idx c] } }
            (idx + 1) rest
            (ledger.device.behaviour ledger.device.log
              (signMessage ledger.getCLA n idx c)).response := by
      rw [LedgerOasis.signLoop]
      simp only [LedgerDevice.Exchange, h0]
    have h' : ∀ k, k < rest.length →
        (ledger.device.behaviour
          ((ledger.device.log ++ [signMessage ledger.getCLA n idx c])
            ++ (framesFrom ledger.getCLA n (idx + 1) rest).take k)
          ((framesFrom ledger.getCLA n (idx + 1) rest).getD k [])).err = none := by
      intro k hk
      have := h (k + 1) (by simp; omega)
      simpa [framesFrom] using this
    obtain ⟨ih1, ih2⟩ := ih
      { ledger with device := { ledger.device with
          log := ledger.device.log ++ [signMessage ledger.getCLA n idx c] } }
      (idx + 1)
      (ledger.device.behaviour ledger.device.log
        (signMessage ledger.getCLA n idx c)).response h'
    rw [hstep]
    refine ⟨?_, ?_⟩
    · rw [ih1]; simp [framesFrom]; rfl
    · rw [ih2]
      cases rest with
      | nil => simp [framesFrom]
      | cons c2 rest2 =>
        simp [framesFrom, List.getLast?_cons_cons]
        rfl

theorem signLoop_fail (n : Nat) (rest : List Bytes) :
    ∀ (ledger : LedgerOasis) (idx : Nat) (fin : Bytes) (k : Nat) (e : Bytes),
      k < rest.length →
      (∀ j, j < k →
        (ledger.device.behaviour
          (ledger.device.log ++ (framesFrom ledger.getCLA n idx rest).take j)
          ((framesFrom ledger.getCLA n idx rest).getD j [])).err = none) →
      (ledger.device.behaviour
          (ledger.device.log ++ (framesFrom ledger.getCLA n idx rest).take k)
          ((framesFrom ledger.getCLA n idx rest).getD k [])).err = some e →
      (LedgerOasis.signLoop n ledger idx rest fin).1.device.log
          = ledger.device.log ++ (framesFrom ledger.getCLA n idx rest).take (k + 1) ∧
        (LedgerOasis.signLoop n ledger idx rest fin).2
          = .error (signError e
              (ledger.device.behaviour
                (ledger.device.log ++ (framesFrom ledger.getCLA n idx rest).take k)
                ((framesFrom ledger.getCLA n idx rest).getD k [])).response) := by
  induction rest with
  | nil => intro ledger idx fin k e hk; simp at hk
  | cons c rest ih =>
    intro ledger idx fin k e hk hbefore hfail
    cases k with
    | zero =>
      simp only [framesFrom, List.take_zero, List.append_nil, List.getD_cons_zero] at hfail
      rw [LedgerOasis.signLoop]
      simp only [LedgerDevice.Exchange, hfail]
      simp [framesFrom]
    | succ k =>
      have h0 := hbefore 0 (by omega)
      simp only [framesFrom, List.take_zero, List.append_nil, List.getD_cons_zero] at h0
      have hstep : LedgerOasis.signLoop n ledger idx (c :: rest) fin
          = LedgerOasis.signLoop n
              { ledger with device := { ledger.device with
                  log := ledger.device.log ++ [signMessage ledger.getCLA n idx c] } }
              (idx + 1) rest
              (ledger.device.behaviour ledger.device.log
                (signMessage ledger.getCLA n idx c)).response := by
        rw [LedgerOasis.signLoop]
        simp only [LedgerDevice.Exchange, h0]
      have hb' : ∀ j, j < k →
          (ledger.device.behaviour
            ((ledger.device.log ++ [signMessage ledger.getCLA n idx c])
              ++ (framesFrom ledger.getCLA n (idx + 1) rest).take j)
            ((framesFrom ledger.getCLA n (idx + 1) rest).getD j [])).err = none := by
        intro j hj
        have := hbefore (j + 1) (by omega)
        simpa [framesFrom] using this
      have hf' : (ledger.device.behaviour
            ((ledger.device.log ++ [signMessage ledger.getCLA n idx c])
              ++ (framesFrom ledger.getCLA n (idx + 1) rest).take k)
            ((framesFrom ledger.getCLA n (idx + 1) rest).getD k [])).err = some e := by
        simpa [framesFrom] using hfail
      obtain ⟨ih1, ih2⟩ := ih
        { ledger with device := { ledger.device with
            log := ledger.device.log ++ [signMessage ledger.getCLA n idx c] } }
        (idx + 1)
        (ledger.device.behaviour ledger.device.log
          (signMessage ledger.getCLA n idx c)).response k e
        (by simpa using hk) hb' hf'
      rw [hstep]
      refine ⟨?_, ?_⟩
      · rw [ih1]; simp [framesFrom]; rfl
      · rw [ih2]; simp [framesFrom]; rfl

theorem sign_eq_signChunks (pkg : Package) (ledger : LedgerOasis) (path : List Nat)
    (context transaction pathBytes : Bytes) (chunks : List Bytes)
    (hp : pkg.GetBip44bytes path 5 = .ok pathBytes)
    (hc : pkg.prepareChunks pathBytes context transaction pkg.userMessageChunkSize
      = .ok chunks) :
    ledger.sign pkg path context transaction = ledger.signChunks chunks := by
  unfold LedgerOasis.sign
  simp only [hp, hc]

theorem doPrintf_of_no_percent (s : Bytes) :
    ∀ fuel : Nat, s.length < fuel → (∀ c ∈ s, c ≠ 37) → doPrintf fuel s = s := by
  induction s with
  | nil => intro fuel h _; cases fuel with
    | zero => rfl
    | succ f => rfl
  | cons c cs ih =>
    intro fuel h hno
    cases fuel with
    | zero => simp at h
    | succ f =>
      have hc : c ≠ 37 := hno c (List.mem_cons_self _ _)
      simp only [doPrintf, hc, if_false]
      rw [ih f (by simpa using h) (fun x hx => hno x (List.mem_cons_of_mem _ hx))]

/-- The text of `fmt.Errorf(format)` is the format itself when it has no `%` byte -/
theorem errorfText_of_no_percent (s : Bytes) (hno : ∀ c ∈ s, c ≠ 37) : errorfText s = s :=
  doPrintf_of_no_percent s _ (Nat.lt_succ_self _) hno

/-- The result of the loop of `sign`, for every chunk sequence and every device.  If all
the exchanges succeed, the result is the response of the exchange of the final chunk.  If
the exchange of chunk `k` is the first to fail, the result is an error, and the frames on
the wire stop with the one of chunk `k`.  The error is the transport error, passed on
unchanged, unless its text is one of the three known rejection messages: then it is
`fmt.Errorf(response)`, whose text is the response when the response has no `%` byte. -/
theorem signChunks_result (ledger : LedgerOasis) (chunks : List Bytes) :
    (chunks ≠ [] →
      (∀ k, k < chunks.length →
        (ledger.device.behaviour
          (ledger.device.log ++ (framesFrom ledger.getCLA chunks.length 0 chunks).take k)
          ((framesFrom ledger.getCLA chunks.length 0 chunks).getD k [])).err = none) →
      (ledger.signChunks chunks).2
        = .ok (ledger.device.behaviour
            (ledger.device.log ++ (framesFrom ledger.getCLA chunks.length 0 chunks).dropLast)
            ((framesFrom ledger.getCLA chunks.length 0 chunks).getLast?.getD [])).response) ∧
    (∀ (k : Nat) (e : Bytes), k < chunks.length →
      (∀ j, j < k →
        (ledger.device.behaviour
          (ledger.device.log ++ (framesFrom ledger.getCLA chunks.length 0 chunks).take j)
          ((framesFrom ledger.getCLA chunks.length 0 chunks).getD j [])).err = none) →
      (ledger.device.behaviour
          (ledger.device.log ++ (framesFrom ledger.getCLA chunks.length 0 chunks).take k)
          ((framesFrom ledger.getCLA chunks.length 0 chunks).getD k [])).err = some e →
      (ledger.signChunks chunks).1.device.log
          = ledger.device.log ++ (framesFrom ledger.getCLA chunks.length 0 chunks).take (k + 1) ∧
        (ledger.signChunks chunks).2
          = .error (signError e
              (ledger.device.behaviour
                (ledger.device.log ++ (framesFrom ledger.getCLA chunks.length 0 chunks).take k)
                ((framesFrom ledger.getCLA chunks.length 0 chunks).getD k [])).response)) ∧
    (∀ e response : Bytes,
      (e ≠ msgBadKeyHandle → e ≠ msgDataInvalid → e ≠ msgCommandNotAllowed →
        signError e response = .passed e) ∧
      ((e = msgBadKeyHandle ∨ e = msgDataInvalid ∨ e = msgCommandNotAllowed) →
        signError e response = .errorf response ∧
        ((∀ c ∈ response, c ≠ 37) → (signError e response).Error = response))) := by
  refine ⟨?_, ?_, ?_⟩
  · intro hne hok
    have h := (signLoop_ok chunks.length chunks ledger 0 [] hok).2
    simpa [LedgerOasis.signChunks, hne] using h
  · intro k e hk hbefore hfail
    exact signLoop_fail chunks.length chunks ledger 0 [] k e hk hbefore hfail
  · intro e response
    refine ⟨?_, ?_⟩
    · intro h1 h2 h3
      simp [signError, h1, h2, h3]
    · intro h
      have hs : signError e response = .errorf response := by
        unfold signError
        rcases h with h | h | h
        · rw [if_pos h]
        · split_ifs <;> rfl
        · split_ifs <;> rfl
      refine ⟨hs, fun hno => ?_⟩
      rw [hs]
      exact errorfText_of_no_percent response hno

theorem connectLoop_match (pkg : Package) (seeking : Bytes) (path : List Nat) (mode : Nat)
    (todo : List Slot) :
    ∀ (start i : Nat) (s : LedgerOasis),
      (connectLoop pkg seeking path mode start todo).2.2 = some (i, s) →
      s.version = ⟨mode % 256, 0, 0, 0⟩ ∧
      ∃ slot sent, todo[i - start]? = some slot ∧ start ≤ i ∧
        s.device.behaviour = slot.device.behaviour ∧
        s.device.log = slot.device.log ++ sent ∧
        ∀ f ∈ sent, f.head?
          = some (if mode % 256 = ValidatorMode then CLAValidator else CLAConsumer) := by
  induction todo with
  | nil => intro start i s h; simp [connectLoop] at h
  | cons sl rest ih =>
    intro start i s h
    have next : (connectLoop pkg seeking path mode (start + 1) rest).2.2 = some (i, s) →
        s.version = ⟨mode % 256, 0, 0, 0⟩ ∧
        ∃ slot sent, (sl :: rest)[i - start]? = some slot ∧ start ≤ i ∧
          s.device.behaviour = slot.device.behaviour ∧
          s.device.log = slot.device.log ++ sent ∧
          ∀ f ∈ sent, f.head?
            = some (if mode % 256 = ValidatorMode then CLAValidator else CLAConsumer) := by
      intro h'
      obtain ⟨hv, slot, sent, hs, hle, hb, hl, hf⟩ := ih (start + 1) i s h'
      refine ⟨hv, slot, sent, ?_, by omega, hb, hl, hf⟩
      have : i - start = (i - (start + 1)) + 1 := by omega
      rw [this, List.getElem?_cons_succ]
      exact hs
    rw [connectLoop] at h
    split at h
    · exact next h
    · obtain ⟨sent, hlog, hheads, hver, hbeh⟩ := retrieve_log pkg
        { device := sl.device,
          version := { AppMode := mode % 256, Major := 0, Minor := 0, Patch := 0 } } path false
      simp only [LedgerOasis.GetAddressPubKeyEd25519] at h
      split at h
      · exact next h
      · split at h
        · simp only [Option.some.injEq, Prod.mk.injEq] at h
          obtain ⟨hi, hs⟩ := h
          subst hi
          subst hs
          refine ⟨hver, sl, sent, by simp, le_refl _, hbeh, hlog, ?_⟩
          intro f hf
          rw [hheads f hf]
          rfl
        · exact next h

theorem run_validator (pkg : Package) (ledger : LedgerOasis) (op : Op)
    (hmode : ledger.version.AppMode = ValidatorMode)
    (hdev : ∀ hist cla, (ledger.device.behaviour hist [cla, 0, 0, 0, 0]).err = none →
      4 ≤ (ledger.device.behaviour hist [cla, 0, 0, 0, 0]).response.length →
      (ledger.device.behaviour hist [cla, 0, 0, 0, 0]).response.head? = some ValidatorMode) :
    (ledger.run pkg op).version.AppMode = ValidatorMode ∧
    (ledger.run pkg op).device.behaviour = ledger.device.behaviour ∧
    ∃ sent, (ledger.run pkg op).device.log = ledger.device.log ++ sent ∧
      ∀ f ∈ sent, f.head? = some 0xF5 := by
  have hcla : ledger.getCLA = 0xF5 := by simp [LedgerOasis.getCLA, hmode, CLAValidator]
  cases op with
  | GetVersion =>
    refine ⟨?_, (GetVersion_log ledger).2, [[ledger.getCLA, INSGetVersion, 0, 0, 0]],
      (GetVersion_log ledger).1, by simp [hcla]⟩
    rcases GetVersion_mode ledger with h | ⟨he, hl, hh⟩
    · show ledger.GetVersion.1.version.AppMode = ValidatorMode
      rw [h]; exact hmode
    · have := hdev ledger.device.log ledger.getCLA he hl
      rw [hh] at this
      exact Option.some.inj this
  | GetAddressPubKeyEd25519 p =>
    obtain ⟨sent, h1, h2, h3, h4⟩ := retrieve_log pkg ledger p false
    exact ⟨by show (ledger.retrieveAddressPubKeyEd25519 pkg p false).1.version.AppMode = _
              rw [h3]; exact hmode, h4, sent, h1, fun f hf => by rw [h2 f hf, hcla]⟩
  | ShowAddressPubKeyEd25519 p =>
    obtain ⟨sent, h1, h2, h3, h4⟩ := retrieve_log pkg ledger p true
    exact ⟨by show (ledger.retrieveAddressPubKeyEd25519 pkg p true).1.version.AppMode = _
              rw [h3]; exact hmode, h4, sent, h1, fun f hf => by rw [h2 f hf, hcla]⟩
  | SignEd25519 p c t =>
    obtain ⟨sent, h1, h2, h3, h4⟩ := sign_log pkg ledger p c t
    exact ⟨by show (ledger.sign pkg p c t).1.version.AppMode = _
              rw [h3]; exact hmode, h4, sent, h1, fun f hf => by rw [h2 f hf, hcla]⟩

theorem runAll_validator (pkg : Package) (ops : List Op) :
    ∀ (ledger : LedgerOasis), ledger.version.AppMode = ValidatorMode →
      (∀ hist cla, (ledger.device.behaviour hist [cla, 0, 0, 0, 0]).err = none →
        4 ≤ (ledger.device.behaviour hist [cla, 0, 0, 0, 0]).response.length →
        (ledger.device.behaviour hist [cla, 0, 0, 0, 0]).response.head? = some ValidatorMode) →
      ∃ sent, (ledger.runAll pkg ops).device.log = ledger.device.log ++ sent ∧
        ∀ f ∈ sent, f.head? = some 0xF5 := by
  induction ops with
  | nil => intro ledger _ _; exact ⟨[], by simp [LedgerOasis.runAll]⟩
  | cons op ops ih =>
    intro ledger hmode hdev
    obtain ⟨hm, hb, sent1, hl1, hf1⟩ := run_validator pkg ledger op hmode hdev
    obtain ⟨sent2, hl2, hf2⟩ := ih (ledger.run pkg op) hm (by rw [hb]; exact hdev)
    refine ⟨sent1 ++ sent2, ?_, ?_⟩
    · show ((ledger.run pkg op).runAll pkg ops).device.log = _
      rw [hl2, hl1, List.append_assoc]
    · intro f hf
      rcases List.mem_append.1 hf with h | h
      · exact hf1 f h
      · exact hf2 f h

/-! ## The claims -/

/-- C1 (evaluation at a failing input): two devices in enumeration order, A (address
oasis1x) then B (address oasis1y).  The call connect(oasis1y, 44/474/0/0/0) returns a
session bound to B, and A was opened and queried before it; but the handle of A, whose
query succeeded with another address, is still open when connect returns.  With a device
whose address query fails in the place of A, that handle is closed (the deferred Close). -/
theorem connect_leaves_mismatched_handle_open :
    (∃ out s, ConnectLedgerOasisApp demoPackage (str "oasis1y") [44, 474, 0, 0, 0] scenarioAdmin
        = some out ∧
      out.result = .ok (1, s) ∧
      out.devices.map (fun d => d.device.log.length) = [1, 1] ∧
      out.devices.map (fun d => d.device.closed) = [false, false]) ∧
    (∃ out s, ConnectLedgerOasisApp demoPackage (str "oasis1y") [44, 474, 0, 0, 0]
        scenarioAdminShort = some out ∧
      out.result = .ok (1, s) ∧
      out.devices.map (fun d => d.device.log.length) = [1, 1] ∧
      out.devices.map (fun d => d.device.closed) = [true, false]) :=
  ⟨⟨_, _, rfl, rfl, rfl, rfl⟩, ⟨_, _, rfl, rfl, rfl, rfl⟩⟩

/-- C2 (as the code has it): the version gate of the session compares (major, minor,
patch) lexicographically with the baseline (0, 3, 0), the literal VersionInfo(0, 0, 3, 0)
read in the field order (AppMode, Major, Minor, Patch): it accepts exactly the versions
that are lexicographically at least (0, 3, 0), whatever their AppMode; so it accepts
(0, 3, 0) and rejects both (0, 0, 3) and (0, 0, 2). -/
theorem CheckVersion_baseline_0_3_0 (ledger : LedgerOasis) (ver : VersionInfo) :
    ((ledger.CheckVersion ver).toBool = true ↔
      toLex ((0 : Nat), toLex ((3 : Nat), (0 : Nat)))
        ≤ toLex (ver.Major, toLex (ver.Minor, ver.Patch))) ∧
    (ledger.CheckVersion ⟨ver.AppMode, 0, 3, 0⟩).toBool = true ∧
    (ledger.CheckVersion ⟨ver.AppMode, 0, 0, 3⟩).toBool = false ∧
    (ledger.CheckVersion ⟨ver.AppMode, 0, 0, 2⟩).toBool = false := by
  refine ⟨?_, rfl, rfl, rfl⟩
  simp only [LedgerOasis.CheckVersion, CheckVersion, Prod.Lex.le_iff]
  split_ifs with h
  · simp only [Except.toBool]
    simp
    omega
  · simp only [Except.toBool]
    simp
    omega

/-- C2 (counterexample): the version gate rejects the device version (0, 0, 3), which a
baseline of (0, 0, 3) would accept -/
theorem CheckVersion_rejects_0_0_3 :
    (classSession.CheckVersion ⟨2, 0, 0, 3⟩).toBool = false ∧
    (CheckVersion ⟨2, 0, 0, 3⟩ ⟨0, 0, 0, 3⟩).toBool = true :=
  ⟨rfl, rfl⟩

/-- C3: when the chunk sequence c_0 .. c_(n-1) produced for a sign call (empty or not) has
no chunk longer than 255 bytes and every exchange of the call succeeds, sign issues exactly one exchange
per chunk, in order, and the i-th request frame is [class, 2, tag_i, 0, len(c_i)] ++ c_i
with tag_0 = 0 (Init), tag_(n-1) = 2 (Last) when n is at least 2 and tag_i = 1 (Add) in
between; a sole chunk is tagged Init, not Last. -/
theorem sign_frames_tagged (pkg : Package) (ledger : LedgerOasis) (path : List Nat)
    (context transaction pathBytes : Bytes) (chunks : List Bytes)
    (hp : pkg.GetBip44bytes path 5 = .ok pathBytes)
    (hc : pkg.prepareChunks pathBytes context transaction pkg.userMessageChunkSize
      = .ok chunks)
    (hlen : ∀ c ∈ chunks, c.length ≤ 255)
    (hok : ∀ k, k < chunks.length →
      (ledger.device.behaviour
        (ledger.device.log ++ (specFrames ledger.getCLA chunks).take k)
        ((specFrames ledger.getCLA chunks).getD k [])).err = none) :
    (ledger.sign pkg path context transaction).1.device.log
      = ledger.device.log ++ specFrames ledger.getCLA chunks ∧
    (specFrames ledger.getCLA chunks).length = chunks.length ∧
    (∀ i, i < chunks.length → (specFrames ledger.getCLA chunks)[i]?
      = some ([ledger.getCLA, 2, specTag chunks.length i, 0, (chunks.getD i []).length]
          ++ chunks.getD i [])) ∧
    (specTag chunks.length 0 = 0 ∧
      (2 ≤ chunks.length → specTag chunks.length (chunks.length - 1) = 2) ∧
      (∀ i, 0 < i → i < chunks.length - 1 → specTag chunks.length i = 1)) ∧
    (∃ signature, (ledger.sign pkg path context transaction).2 = .ok signature) ∧
    (∀ c, chunks = [c] →
      (ledger.sign pkg path context transaction).1.device.log
        = ledger.device.log ++ [[ledger.getCLA, 2, 0, 0, c.length] ++ c]) := by
  have hs := sign_eq_signChunks pkg ledger path context transaction pathBytes chunks hp hc
  have hF := framesFrom_eq_specFrames ledger.getCLA chunks hlen
  have h := signLoop_ok chunks.length chunks ledger 0 [] (by rw [hF]; exact hok)
  rw [hF] at h
  have hlog : (ledger.sign pkg path context transaction).1.device.log
      = ledger.device.log ++ specFrames ledger.getCLA chunks := by rw [hs]; exact h.1
  refine ⟨hlog, by simp [specFrames], ?_, ?_, ⟨_, by rw [hs]; exact h.2⟩, ?_⟩
  · intro i hi
    simp [specFrames, List.getElem?_range hi, hi]
  · refine ⟨by simp [specTag], ?_, ?_⟩
    · intro h2
      have h1 : chunks.length - 1 ≠ 0 := by omega
      have h3 : chunks.length - 1 + 1 = chunks.length := by omega
      simp [specTag, h1, h3]
    · intro i h0 h1
      have h2 : i ≠ 0 := by omega
      have h3 : i + 1 ≠ chunks.length := by omega
      simp [specTag, h2, h3]
  · intro c hc1
    rw [hlog, hc1]
    simp [specFrames, specTag, List.range_succ]

/-- Example for C3: the path 44/474/0/0/0, an empty context and the transaction `7 7` give
two chunks; on a device that never fails they go out as an Init frame and a Last frame -/
theorem sign_frames_tagged_witness :
    demoPackage.GetBip44bytes [44, 474, 0, 0, 0] 5
      = .ok [44, 0, 0, 128, 218, 1, 0, 128, 0, 0, 0, 128, 0, 0, 0, 128, 0, 0, 0, 128] ∧
    demoPackage.prepareChunks
        [44, 0, 0, 128, 218, 1, 0, 128, 0, 0, 0, 128, 0, 0, 0, 128, 0, 0, 0, 128] [] [7, 7]
        demoPackage.userMessageChunkSize = .ok demoChunks ∧
    (∀ c ∈ demoChunks, c.length ≤ 255) ∧
    (({ device := deviceValidator, version := ⟨1, 0, 3, 0⟩ } : LedgerOasis).sign
        demoPackage [44, 474, 0, 0, 0] [] [7, 7]).1.device.log
      = [[0xF5, 2, 0, 0, 20, 44, 0, 0, 128, 218, 1, 0, 128, 0, 0, 0, 128, 0, 0, 0, 128,
            0, 0, 0, 128],
         [0xF5, 2, 2, 0, 3, 0, 7, 7]] :=
  ⟨rfl, rfl, by decide,
    (sign_frames_tagged demoPackage { device := deviceValidator, version := ⟨1, 0, 3, 0⟩ }
      [44, 474, 0, 0, 0] [] [7, 7]
      [44, 0, 0, 128, 218, 1, 0, 128, 0, 0, 0, 128, 0, 0, 0, 128, 0, 0, 0, 128] demoChunks
      rfl rfl (by decide)
      (by intro k _; simp only [deviceValidator, simulatedDevice]; split <;> rfl)).1⟩

/-- C4 (evaluation at a failing input): the device rejects the first frame of a sign call
with the status text of `DATA_INVALID` and the response `100%`.  The call stops after that
one frame and returns an error and no signature, as claimed; but the error is
`fmt.Errorf("100%")`, and its text is `100%!(NOVERB)`, not the response bytes `100%`. -/
theorem sign_rejection_text_is_formatted :
    (rejectedSession.sign demoPackage [44, 474, 0, 0, 0] [] [7, 7]).2
      = .error (.errorf (str "100%")) ∧
    (rejectedSession.sign demoPackage [44, 474, 0, 0, 0] [] [7, 7]).1.device.log
      = [[0x05, 2, 0, 0, 20, 44, 0, 0, 128, 218, 1, 0, 128, 0, 0, 0, 128, 0, 0, 0, 128,
            0, 0, 0, 128]] ∧
    (GoError.errorf (str "100%")).Error = str "100%!(NOVERB)" ∧
    (GoError.errorf (str "100%")).Error ≠ str "100%" := by
  refine ⟨?_, ?_, ?_, ?_⟩
  · rfl
  · rfl
  · decide
  · decide

/-- C5: GetVersion puts the single frame [class, 0, 0, 0, 0] on the wire; it fails exactly
when the transport reports an error or the response has fewer than 4 bytes (a transport
error is handed back unchanged); on success the returned and the cached VersionInfo are
both (AppMode r[0], Major r[1], Minor r[2], Patch r[3]) of the response r, whatever
follows the fourth byte; on failure the cached VersionInfo is the one from before. -/
theorem GetVersion_frame_and_result (ledger : LedgerOasis) :
    let r := ledger.device.behaviour ledger.device.log [ledger.getCLA, 0, 0, 0, 0]
    ledger.GetVersion.1.device.log = ledger.device.log ++ [[ledger.getCLA, 0, 0, 0, 0]] ∧
    ((∃ e, ledger.GetVersion.2 = .error e) ↔ (r.err ≠ none ∨ r.response.length < 4)) ∧
    (∀ e, r.err = some e → ledger.GetVersion.2 = .error (.passed e)) ∧
    (r.err = none → 4 ≤ r.response.length →
      ledger.GetVersion.2 = .ok ⟨r.response.getD 0 0, r.response.getD 1 0,
        r.response.getD 2 0, r.response.getD 3 0⟩ ∧
      ledger.GetVersion.1.version = ⟨r.response.getD 0 0, r.response.getD 1 0,
        r.response.getD 2 0, r.response.getD 3 0⟩) ∧
    ((∃ e, ledger.GetVersion.2 = .error e) → ledger.GetVersion.1.version = ledger.version) := by
  intro r
  refine ⟨(GetVersion_log ledger).1, ?_⟩
  have hr : r = ledger.device.behaviour ledger.device.log [ledger.getCLA, 0, 0, 0, 0] := rfl
  unfold LedgerOasis.GetVersion
  simp only [LedgerDevice.Exchange, INSGetVersion, ← hr]
  cases he : r.err with
  | some e => simp
  | none =>
    rcases hresp : r.response with _ | ⟨r0, _ | ⟨r1, _ | ⟨r2, _ | ⟨r3, rest⟩⟩⟩⟩ <;> simp

/-- C6: for an encoded path p of at most 255 bytes the address query puts the frame
[class, 1, p1, 0, len(p)] ++ p on the wire, with p1 = 1 when confirmation is requested and
0 otherwise; when the exchange succeeds with response r, the query fails exactly when
len(r) < 39, and otherwise returns the first 32 bytes of r as the public key and all the
remaining bytes as the address, so that pubkey ++ address = r and the address has at
least 7 bytes. -/
theorem retrieveAddressPubKeyEd25519_frame_and_result (pkg : Package) (ledger : LedgerOasis)
    (path : List Nat) (confirm : Bool) (p : Bytes)
    (hp : pkg.GetBip44bytes path 5 = .ok p) (hlen : p.length ≤ 255) :
    let frame := [ledger.getCLA, 1, if confirm then 1 else 0, 0, p.length] ++ p
    let r := ledger.device.behaviour ledger.device.log frame
    let out := ledger.retrieveAddressPubKeyEd25519 pkg path confirm
    out.1.device.log = ledger.device.log ++ [frame] ∧
    (r.err = none →
      ((∃ e, out.2 = .error e) ↔ r.response.length < 39) ∧
      (39 ≤ r.response.length →
        out.2 = .ok (r.response.take 32, r.response.drop 32) ∧
        (r.response.take 32).length = 32 ∧
        r.response.take 32 ++ r.response.drop 32 = r.response ∧
        7 ≤ (r.response.drop 32).length)) := by
  intro frame r out
  have hmod : p.length % 256 = p.length := Nat.mod_eq_of_lt (by omega)
  have hout : out = ledger.retrieveAddressPubKeyEd25519 pkg path confirm := rfl
  have hr : r = ledger.device.behaviour ledger.device.log
      ([ledger.getCLA, 1, if confirm then 1 else 0, 0, p.length] ++ p) := rfl
  unfold LedgerOasis.retrieveAddressPubKeyEd25519 at hout
  simp only [hp, LedgerDevice.Exchange, INSGetAddrEd25519] at hout
  have hmsg : ([ledger.getCLA, 1, if confirm then 1 else 0, 0, 0] ++ p).set 4
      ((([ledger.getCLA, 1, if confirm then 1 else 0, 0, 0] ++ p).length
        - [ledger.getCLA, 1, if confirm then 1 else 0, 0, 0].length) % 256)
      = [ledger.getCLA, 1, if confirm then 1 else 0, 0, p.length] ++ p := by
    simp [hmod]
  rw [hmsg, ← hr] at hout
  cases he : r.err with
  | some e =>
    rw [he] at hout
    simp [hout, frame]
  | none =>
    rw [he] at hout
    by_cases h39 : r.response.length < 39
    · simp only [h39, if_true] at hout
      simp [hout, frame, h39]
    · simp only [h39, if_false] at hout
      simp [hout, frame, h39]
      omega

/-- Example for C6: the address query of the path 44/474/0/0/0 on device A -/
theorem retrieveAddressPubKeyEd25519_frame_and_result_witness :
    (({ device := deviceA, version := ⟨2, 0, 0, 0⟩ } :
        LedgerOasis).retrieveAddressPubKeyEd25519 demoPackage [44, 474, 0, 0, 0] false).1.device.log
      = [[0x05, 1, 0, 0, 20, 44, 0, 0, 128, 218, 1, 0, 128, 0, 0, 0, 128, 0, 0, 0, 128,
            0, 0, 0, 128]] ∧
    (({ device := deviceA, version := ⟨2, 0, 0, 0⟩ } :
        LedgerOasis).retrieveAddressPubKeyEd25519 demoPackage [44, 474, 0, 0, 0] false).2
      = .ok (demoPubKey, str "oasis1x") :=
  ⟨(retrieveAddressPubKeyEd25519_frame_and_result demoPackage
      { device := deviceA, version := ⟨2, 0, 0, 0⟩ } [44, 474, 0, 0, 0] false
      [44, 0, 0, 128, 218, 1, 0, 128, 0, 0, 0, 128, 0, 0, 0, 128, 0, 0, 0, 128]
      rfl (by decide)).1,
   ((retrieveAddressPubKeyEd25519_frame_and_result demoPackage
      { device := deviceA, version := ⟨2, 0, 0, 0⟩ } [44, 474, 0, 0, 0] false
      [44, 0, 0, 128, 218, 1, 0, 128, 0, 0, 0, 128, 0, 0, 0, 128, 0, 0, 0, 128]
      rfl (by decide)).2 rfl).2 (by decide) |>.1⟩

/-- C7: getCLA returns 0xF5 when the cached AppMode byte is ValidatorMode (1) and 0x05 for
every other cached value, among them ConsumerMode (2), UnknownMode (3) and the zero value;
and the frames that GetVersion, the address query and sign put on the wire all start with
getCLA of the session they are called on (sign and the address query leave the cached
version, hence the class, as it is while they run). -/
theorem getCLA_selects_class :
    (∀ l : LedgerOasis, l.version.AppMode = ValidatorMode → l.getCLA = 0xF5) ∧
    (∀ l : LedgerOasis, l.version.AppMode ≠ ValidatorMode → l.getCLA = 0x05) ∧
    (ValidatorMode = 1 ∧ ConsumerMode ≠ ValidatorMode ∧ UnknownMode ≠ ValidatorMode
      ∧ (0 : Nat) ≠ ValidatorMode) ∧
    (∀ l : LedgerOasis, ∃ f, l.GetVersion.1.device.log = l.device.log ++ [f]
      ∧ f.head? = some l.getCLA) ∧
    (∀ (pkg : Package) (l : LedgerOasis) (path : List Nat) (confirm : Bool),
      ∃ sent, (l.retrieveAddressPubKeyEd25519 pkg path confirm).1.device.log
          = l.device.log ++ sent
        ∧ (∀ f ∈ sent, f.head? = some l.getCLA)
        ∧ (l.retrieveAddressPubKeyEd25519 pkg path confirm).1.version = l.version) ∧
    (∀ (pkg : Package) (l : LedgerOasis) (path : List Nat) (context transaction : Bytes),
      ∃ sent, (l.sign pkg path context transaction).1.device.log = l.device.log ++ sent
        ∧ (∀ f ∈ sent, f.head? = some l.getCLA)
        ∧ (l.sign pkg path context transaction).1.version = l.version) := by
  refine ⟨?_, ?_, by decide, ?_, ?_, ?_⟩
  · intro l h; simp [LedgerOasis.getCLA, h, CLAValidator]
  · intro l h; simp [LedgerOasis.getCLA, h, CLAConsumer]
  · intro l; exact ⟨_, (GetVersion_log l).1, rfl⟩
  · intro pkg l path confirm
    obtain ⟨sent, h1, h2, h3, _⟩ := retrieve_log pkg l path confirm
    exact ⟨sent, h1, h2, h3⟩
  · intro pkg l path c t
    obtain ⟨sent, h1, h2, h3, _⟩ := sign_log pkg l path c t
    exact ⟨sent, h1, h2, h3⟩

/-- C8 (as the code has it): for a session returned by connect with a path whose first
element is 43, the derived mode is Validator, the frames connect sent on its handle have
class 0xF5, and every frame of every sequence of later operations (version query, address
query, sign) has class 0xF5, provided the device reports mode 1 (Validator) in every
successful version response: a version query caches the mode the device reports, and the
class follows the cached mode. -/
theorem connect_validator_frames (pkg : Package) (seekingAddress : Bytes) (path : List Nat)
    (admin : List Slot) (out : ConnectResult) (i : Nat) (s : LedgerOasis) (ops : List Op)
    (hpath : path.head? = some 43)
    (hconn : ConnectLedgerOasisApp pkg seekingAddress path admin = some out)
    (hres : out.result = .ok (i, s))
    (hdev : ∀ hist cla, (s.device.behaviour hist [cla, 0, 0, 0, 0]).err = none →
      4 ≤ (s.device.behaviour hist [cla, 0, 0, 0, 0]).response.length →
      (s.device.behaviour hist [cla, 0, 0, 0, 0]).response.head? = some ValidatorMode) :
    s.version.AppMode = ValidatorMode ∧
    (∃ slot sent, admin[i]? = some slot ∧ s.device.log = slot.device.log ++ sent ∧
      ∀ f ∈ sent, f.head? = some 0xF5) ∧
    (∃ sent, (s.runAll pkg ops).device.log = s.device.log ++ sent ∧
      ∀ f ∈ sent, f.head? = some 0xF5) := by
  obtain ⟨p0, rest, rfl⟩ : ∃ p0 rest, path = p0 :: rest := by
    cases path with
    | nil => simp at hpath
    | cons p0 rest => exact ⟨p0, rest, rfl⟩
  have hp0 : p0 = 43 := by simpa using hpath
  subst hp0
  simp only [ConnectLedgerOasisApp, GetModeForPath, PathPurposeConsensus, if_true,
    Option.some.injEq] at hconn
  subst hconn
  simp only at hres
  have hm : (connectLoop pkg seekingAddress (43 :: rest) ValidatorMode 0 admin).2.2
      = some (i, s) := by
    revert hres
    cases (connectLoop pkg seekingAddress (43 :: rest) ValidatorMode 0 admin).2.2 with
    | none => intro h; simp at h
    | some m => intro h; simp only [Except.ok.injEq] at h; rw [h]
  obtain ⟨hv, slot, sent, hs, _, _, hl, hf⟩ :=
    connectLoop_match pkg seekingAddress (43 :: rest) ValidatorMode admin 0 i s hm
  have hmode : s.version.AppMode = ValidatorMode := by rw [hv]; rfl
  refine ⟨hmode, ⟨slot, sent, by simpa using hs, hl, ?_⟩, runAll_validator pkg ops s hmode hdev⟩
  intro f h
  rw [hf f h]
  rfl

/-- Example for C8: one validator device, found through the path 43/474/0/0/0, then a
version query, an address query, a sign call and another version query -/
theorem connect_validator_frames_witness :
    ∃ out s, ConnectLedgerOasisApp demoPackage [] [43, 474, 0, 0, 0]
        [{ connectErr := none, device := deviceValidator }] = some out ∧
      out.result = .ok (0, s) ∧
      s.version.AppMode = ValidatorMode ∧
      ∃ sent, (s.runAll demoPackage [.GetVersion, .GetAddressPubKeyEd25519 [43, 474, 0, 0, 0],
          .SignEd25519 [43, 474, 0, 0, 0] [1] [2, 3], .GetVersion]).device.log
          = s.device.log ++ sent ∧ ∀ f ∈ sent, f.head? = some 0xF5 :=
  ⟨_, _, rfl, rfl,
    (connect_validator_frames demoPackage [] [43, 474, 0, 0, 0]
      [{ connectErr := none, device := deviceValidator }] _ 0 _
      [.GetVersion, .GetAddressPubKeyEd25519 [43, 474, 0, 0, 0],
        .SignEd25519 [43, 474, 0, 0, 0] [1] [2, 3], .GetVersion]
      rfl rfl rfl (fun _ _ _ _ => rfl)).1,
    (connect_validator_frames demoPackage [] [43, 474, 0, 0, 0]
      [{ connectErr := none, device := deviceValidator }] _ 0 _
      [.GetVersion, .GetAddressPubKeyEd25519 [43, 474, 0, 0, 0],
        .SignEd25519 [43, 474, 0, 0, 0] [1] [2, 3], .GetVersion]
      rfl rfl rfl (fun _ _ _ _ => rfl)).2.2⟩

/-- C8 (counterexample): one device that passes the address query and reports the consumer
mode (byte 2) to a version query.  The call connect with the path 43/474/0/0/0 returns a
session in Validator mode; the address query of connect and the first version query go out
with class 0xF5, and the second version query goes out with class 0x05. -/
theorem connect_validator_then_class_changes :
    ∃ out s, ConnectLedgerOasisApp demoPackage [] [43, 474, 0, 0, 0]
        [{ connectErr := none, device := deviceConsumer }] = some out ∧
      out.result = .ok (0, s) ∧
      s.version.AppMode = ValidatorMode ∧
      (s.runAll demoPackage [.GetVersion, .GetVersion]).device.log
        = [[0xF5, 1, 0, 0, 20, 43, 0, 0, 128, 218, 1, 0, 128, 0, 0, 0, 128, 0, 0, 0, 128,
              0, 0, 0, 128],
           [0xF5, 0, 0, 0, 0],
           [0x05, 0, 0, 0, 0]] :=
  ⟨_, _, rfl, rfl, rfl, rfl⟩

/-- C9: for a path with at least one element GetModeForPath returns ValidatorMode when
path[0] = 43 and ConsumerMode otherwise, never UnknownMode, whatever the other elements
are; on the empty path the read of path[0] panics, so GetModeForPath yields no mode and
ConnectLedgerOasisApp, which calls it first, yields neither a session nor an error, for
every device list. -/
theorem GetModeForPath_first_element :
    (∀ (p0 : Nat) (rest : List Nat), GetModeForPath (p0 :: rest)
      = some (if p0 = 43 then ValidatorMode else ConsumerMode)) ∧
    (∀ (p0 : Nat) (rest : List Nat), GetModeForPath (p0 :: rest) ≠ some UnknownMode) ∧
    (∀ (p0 : Nat) (rest other : List Nat),
      GetModeForPath (p0 :: rest) = GetModeForPath (p0 :: other)) ∧
    GetModeForPath [] = none ∧
    (∀ (pkg : Package) (seekingAddress : Bytes) (admin : List Slot),
      ConnectLedgerOasisApp pkg seekingAddress [] admin = none) := by
  refine ⟨fun p0 rest => rfl, ?_, fun p0 rest other => rfl, rfl, fun pkg s admin => rfl⟩
  intro p0 rest
  simp only [GetModeForPath]
  split <;> decide

/-- C10 (as the code has it): on a device whose response is a function of the request
frame alone, two consecutive successful GetVersion calls return the same VersionInfo and
leave the same cached version, provided the first call does not change the class byte,
that is, the mode it caches selects the class the session had before. -/
theorem GetVersion_idempotent_of_same_class (ledger : LedgerOasis) (v1 v2 : VersionInfo)
    (hdev : ∀ h1 h2 f, ledger.device.behaviour h1 f = ledger.device.behaviour h2 f)
    (h1 : ledger.GetVersion.2 = .ok v1)
    (h2 : ledger.GetVersion.1.GetVersion.2 = .ok v2)
    (hcla : ledger.GetVersion.1.getCLA = ledger.getCLA) :
    v1 = v2 ∧ ledger.GetVersion.1.GetVersion.1.version = ledger.GetVersion.1.version := by
  obtain ⟨e1, c1⟩ := GetVersion_ok_inv ledger v1 h1
  obtain ⟨e2, c2⟩ := GetVersion_ok_inv ledger.GetVersion.1 v2 h2
  have hb := (GetVersion_log ledger).2
  rw [hcla, hb, hdev ledger.GetVersion.1.device.log ledger.device.log] at e2
  have hv : v1 = v2 := by rw [e1, e2]
  exact ⟨hv, by rw [c2, c1, hv]⟩

/-- Example for C10: a session in validator mode on a device that reports mode 1 -/
theorem GetVersion_idempotent_of_same_class_witness :
    ({ device := deviceValidator, version := ⟨1, 0, 0, 0⟩ } : LedgerOasis).GetVersion.2
      = .ok ⟨1, 0, 3, 0⟩ ∧
    ({ device := deviceValidator, version := ⟨1, 0, 0, 0⟩ } :
      LedgerOasis).GetVersion.1.GetVersion.2 = .ok ⟨1, 0, 3, 0⟩ ∧
    ((⟨1, 0, 3, 0⟩ : VersionInfo) = ⟨1, 0, 3, 0⟩ ∧
      ({ device := deviceValidator, version := ⟨1, 0, 0, 0⟩ } :
        LedgerOasis).GetVersion.1.GetVersion.1.version
      = ({ device := deviceValidator, version := ⟨1, 0, 0, 0⟩ } :
        LedgerOasis).GetVersion.1.version) :=
  ⟨rfl, rfl,
    GetVersion_idempotent_of_same_class
      { device := deviceValidator, version := ⟨1, 0, 0, 0⟩ } ⟨1, 0, 3, 0⟩ ⟨1, 0, 3, 0⟩
      (fun _ _ _ => rfl) rfl rfl rfl⟩

/-- C10 (counterexample): the two-app device answers by the frame alone, and the session
starts in validator mode.  The first GetVersion goes out with class 0xF5 and returns
version 1.0.0 with mode 2; that mode is cached, so the second GetVersion goes out with
class 0x05 and returns version 2.0.0: the two results differ, and so do the cached
versions after the first and after the second call. -/
theorem GetVersion_twice_differs :
    (∀ h1 h2 f, classSession.device.behaviour h1 f = classSession.device.behaviour h2 f) ∧
    classSession.GetVersion.2 = .ok ⟨2, 1, 0, 0⟩ ∧
    classSession.GetVersion.1.GetVersion.2 = .ok ⟨2, 2, 0, 0⟩ ∧
    classSession.GetVersion.1.version = ⟨2, 1, 0, 0⟩ ∧
    classSession.GetVersion.1.GetVersion.1.version = ⟨2, 2, 0, 0⟩ ∧
    classSession.GetVersion.1.GetVersion.1.device.log
      = [[0xF5, 0, 0, 0, 0], [0x05, 0, 0, 0, 0]] :=
  ⟨fun _ _ _ => rfl, rfl, rfl, rfl, rfl, rfl⟩

end LedgerOasisGo
